import Mathlib

/-!
# Verification of the `gyml` path-addressing engine

A shallow embedding of `gyml.go`: a yaml node tree (`Node`), the index-token
parser (`parseValidIndex`), the resolver (`getValue`), the mutators
(`setValue`, `deleteValue`) and the public wrappers (`SetValue`,
`DeleteValue`, `GetValueWith`), together with a model of the external
yaml.v3 encode/decode boundary used by `SetValue` and `GetValue`.
-/

set_option autoImplicit false

namespace Gyml

/-- The error values declared at the top of `gyml.go` (plus the two wrapped
encode/decode failures produced at the typed boundary). -/
inductive GymlError where
  | rootNotSet
  | keyNotFound
  | emptyDocumentNode
  | unexpectedNodeKind
  | invalidIndexFormat
  | indexOutOfBound
  | invalidKeysList
  | scalarSetAttempt
  | encodeError
  | decodeError
deriving Repr, DecidableEq

/-- A yaml tree node (`yaml.Node`): `Kind` together with the `Content` list
(for `DocumentNode`, `SequenceNode`, `MappingNode`) or the scalar `Value`.
A `MappingNode`'s content alternates key nodes and value nodes
(`key1, value1, key2, value2, ...`).  `other` stands for the remaining
kinds a `yaml.Node` may carry (the zero kind of a fresh node, alias nodes):
all traversal code falls through to `ErrUnexpectedNodeKind` on them. -/
inductive Node where
  | document (content : List Node)
  | sequence (content : List Node)
  | mapping (content : List Node)
  | scalar (value : String)
  | other
deriving Repr

/-- The `Value` field of a node: non-empty only on scalars (mapping keys are
scalar nodes, and the lookup loops compare `Content[i].Value`). -/
def Node.val : Node → String
  | .scalar v => v
  | _ => ""

/-- The `Content` field of a node. -/
def Node.contentOf : Node → List Node
  | .document c => c
  | .sequence c => c
  | .mapping c => c
  | _ => []

/-- Function `isEmptyNode` from `gyml.go`: a mapping or sequence with empty content. -/
def isEmptyNode : Node → Bool
  | .mapping c => c.isEmpty
  | .sequence c => c.isEmpty
  | _ => false

/-- Go's `strconv.Atoi`: optional sign, at least one digit, all base-10
digits, result within the 64-bit signed range (out-of-range input is an
error, which `parseValidIndex` maps to `ErrInvalidIndexFormat`). -/
def goAtoi (s : String) : Option Int :=
  let cs := s.data
  let signed : Bool × List Char :=
    match cs with
    | '-' :: rest => (true, rest)
    | '+' :: rest => (false, rest)
    | _ => (false, cs)
  let neg := signed.1
  let ds := signed.2
  if ds.isEmpty then none
  else if ds.all Char.isDigit then
    let n : Int := (ds.foldl (fun a c => a * 10 + (c.toNat - 48)) 0 : Nat)
    let v : Int := if neg then -n else n
    if v < -(2 ^ 63) ∨ 2 ^ 63 - 1 < v then none else some v
  else none

/-- The slice `indexStr[1 : len(indexStr)-1]` handed to `Atoi`. -/
def strInterior (s : String) : String :=
  String.mk ((s.data.drop 1).dropLast)

/-- Function `parseValidIndex` from `gyml.go`: a token shorter than 3, without the
surrounding brackets, or whose interior `Atoi` rejects, is
`ErrInvalidIndexFormat`; a parsed index outside `[0, len(content))` is
`ErrIndexOutOfBound`; otherwise the index is returned. -/
def parseValidIndex (indexStr : String) (content : List Node) :
    Except GymlError Nat :=
  if indexStr.length < 3 then .error .invalidIndexFormat
  else if indexStr.data.head? ≠ some '[' ∨ indexStr.data.getLast? ≠ some ']' then
    .error .invalidIndexFormat
  else
    match goAtoi (strInterior indexStr) with
    | none => .error .invalidIndexFormat
    | some i =>
      if i < 0 ∨ (content.length : Int) ≤ i then .error .indexOutOfBound
      else .ok i.toNat

theorem parseValidIndex_ok_lt {s : String} {content : List Node} {i : Nat}
    (h : parseValidIndex s content = .ok i) : i < content.length := by
  unfold parseValidIndex at h
  split at h
  · exact absurd h (by simp)
  · split at h
    · exact absurd h (by simp)
    · split at h
      · exact absurd h (by simp)
      · split at h
        · exact absurd h (by simp)
        · rename_i j hj hrange
          rw [not_or] at hrange
          obtain ⟨h0, hlen⟩ := hrange
          cases h
          omega

mutual

/-- Function `getValue` from `gyml.go`: the recursive resolver. -/
def getValue (node : Node) (keys : List String) : Except GymlError Node :=
  match keys with
  | [] => .ok node
  | key :: rest =>
    match node with
    | .document content =>
      match content with
      | [] => .error .emptyDocumentNode
      | c :: _ => getValue c (key :: rest)
    | .sequence content =>
      match h : parseValidIndex key content with
      | .error e => .error e
      | .ok i => getValue (content.get ⟨i, parseValidIndex_ok_lt h⟩) rest
    | .mapping content => getValueInMapping content key rest
    | .scalar _ => .error .unexpectedNodeKind
    | .other => .error .unexpectedNodeKind
termination_by sizeOf node
decreasing_by
  all_goals simp_wf
  all_goals try omega
  have := List.sizeOf_lt_of_mem (List.getElem_mem (parseValidIndex_ok_lt h))
  omega

/-- The `for i := 0; i < len(node.Content); i += 2` lookup loop inside
`getValue`'s mapping case. -/
def getValueInMapping (content : List Node) (key : String)
    (rest : List String) : Except GymlError Node :=
  match content with
  | k :: v :: tail =>
    if k.val = key then getValue v rest
    else getValueInMapping tail key rest
  | _ => .error .keyNotFound
termination_by sizeOf content
decreasing_by
  all_goals simp_wf
  · omega
  · omega

end

/-- An encodable Go value handed to `SetValue` (the `any` values the
envelope builder produces): a scalar primitive (kept as its encoded string
representation), a `[]any` slice, a `map[string]any` / struct as an ordered
entry list, or a value yaml cannot marshal (`func`, `chan`, ...), on which
`Encode` fails. -/
inductive EncValue where
  | scalar (repr : String)
  | list (items : List EncValue)
  | map (entries : List (String × EncValue))
  | unencodable
deriving Repr

mutual

/-- The external `yaml.Node.Encode` (yaml.v3): encoding a value yields the
*bare* node representing it — a scalar node, a sequence node, or a mapping
node whose content is the flat `key1, value1, ...` list.  It does not wrap
the result in a `DocumentNode` (`Encode` ends with `*n = *doc.Content[0]`).
`none` models the marshal error for unsupported values. -/
def encodeNode : EncValue → Option Node
  | .scalar s => some (.scalar s)
  | .list items => (encodeList items).map .sequence
  | .map entries => (encodeEntries entries).map .mapping
  | .unencodable => none

def encodeList : List EncValue → Option (List Node)
  | [] => some []
  | v :: rest =>
    (encodeNode v).bind fun n => (encodeList rest).map fun ns => n :: ns

def encodeEntries : List (String × EncValue) → Option (List Node)
  | [] => some []
  | (k, v) :: rest =>
    (encodeNode v).bind fun n =>
      (encodeEntries rest).map fun ns => .scalar k :: n :: ns

end

/-- Function `createTypedEnvelope` from `gyml.go`: wraps the data in one nesting
level per remaining key, `"[]"` giving a one-element slice and any other
key a single-entry map, outer-to-inner in path order. -/
def createTypedEnvelope (data : EncValue) : List String → EncValue
  | [] => data
  | k :: restKeys =>
    if k = "[]" then .list [createTypedEnvelope data restKeys]
    else .map [(k, createTypedEnvelope data restKeys)]

/-- Function `createContentNode` from `gyml.go`: encode the data into a fresh node,
or fail with the wrapped encode error. -/
def createContentNode (data : EncValue) : Except GymlError Node :=
  match encodeNode data with
  | none => .error .encodeError
  | some n => .ok n

/-- Function `appendDataToContent` from `gyml.go`: encode the typed envelope and
append the encoded node's *content* (not the node itself) to the target
node's content. -/
def appendDataToContent (node : Node) (data : EncValue) (keys : List String) :
    Option GymlError × Node :=
  match createContentNode (createTypedEnvelope data keys) with
  | .error e => (some e, node)
  | .ok contentNode =>
    (none, .document (node.contentOf ++ contentNode.contentOf))

/-- Function `setValue` from `gyml.go` (the private recursion): the mutated tree is
returned alongside the optional error, modelling in-place mutation. -/
def setValue (node : Node) (data : EncValue) (keys : List String) :
    Option GymlError × Node :=
  match node with
  | .scalar v => (some .scalarSetAttempt, .scalar v)
  | .document content =>
    match content with
    | c :: cs =>
      let r := setValue c data keys
      (r.1, .document (r.2 :: cs))
    | [] => appendDataToContent (.document []) data keys
  | n => (some .unexpectedNodeKind, n)

mutual

/-- Function `deleteValue` from `gyml.go` (the private recursion): the mutated tree
is returned alongside the optional error, modelling in-place mutation. -/
def deleteValue (node : Node) (keys : List String) :
    Option GymlError × Node :=
  match keys with
  | [] => (some .invalidKeysList, node)
  | key :: rest =>
    match node with
    | .document content =>
      match content with
      | c :: cs =>
        let r := deleteValue c (key :: rest)
        (r.1, .document (r.2 :: cs))
      | [] => (some .emptyDocumentNode, .document [])
    | .sequence content =>
      match h : parseValidIndex key content with
      | .error e => (some e, .sequence content)
      | .ok i =>
        if rest.isEmpty then (none, .sequence (content.eraseIdx i))
        else
          let r := deleteValue (content.get ⟨i, parseValidIndex_ok_lt h⟩) rest
          let content' := content.set i r.2
          if r.1.isNone && isEmptyNode r.2 then
            (none, .sequence (content'.eraseIdx i))
          else (r.1, .sequence content')
    | .mapping content =>
      let r := deleteInMapping content key rest
      (r.1, .mapping r.2)
    | .scalar v => (some .invalidKeysList, .scalar v)
    | .other => (some .unexpectedNodeKind, .other)
termination_by sizeOf node
decreasing_by
  all_goals simp_wf
  all_goals try omega
  have := List.sizeOf_lt_of_mem (List.getElem_mem (parseValidIndex_ok_lt h))
  omega

/-- The `for i := 0; i < len(node.Content); i += 2` scan-and-mutate loop
inside `deleteValue`'s mapping case: on the first matching key, either the
whole pair is removed (`slices.Delete(content, i, i+2)` when one key
remains) or the recursion runs on the value node and the pair is pruned
when it succeeded and left the value empty. -/
def deleteInMapping (content : List Node) (key : String)
    (rest : List String) : Option GymlError × List Node :=
  match content with
  | k :: v :: tail =>
    if k.val = key then
      if rest.isEmpty then (none, tail)
      else
        let r := deleteValue v rest
        if r.1.isNone && isEmptyNode r.2 then (none, tail)
        else (r.1, k :: r.2 :: tail)
    else
      let r := deleteInMapping tail key rest
      (r.1, k :: v :: r.2)
  | cs => (some .keyNotFound, cs)
termination_by sizeOf content
decreasing_by
  all_goals simp_wf
  · omega
  · omega

end

/-- The public `SetValue`: the keys-list check precedes the nil-root check.
`root = none` models a `nil` root pointer. -/
def SetValue (root : Option Node) (data : EncValue) (keys : List String) :
    Option GymlError × Option Node :=
  if keys.isEmpty then (some .invalidKeysList, root)
  else
    match root with
    | none => (some .rootNotSet, none)
    | some r =>
      let s := setValue r data keys
      (s.1, some s.2)

/-- The public `DeleteValue`: the keys-list check precedes the nil-root
check. -/
def DeleteValue (root : Option Node) (keys : List String) :
    Option GymlError × Option Node :=
  if keys.isEmpty then (some .invalidKeysList, root)
  else
    match root with
    | none => (some .rootNotSet, none)
    | some r =>
      let s := deleteValue r keys
      (s.1, some s.2)

/-- The public `GetValue`, generic over the typed decode step (`DataType`
and `yaml.Node.Decode` plus `normalizeEmptySlice` become the `decode`
argument): a nil root fails with `ErrRootNodeNotSet` before anything else,
an empty keys list is accepted. -/
def GetValueWith {α : Type} (decode : Node → Except GymlError α)
    (root : Option Node) (keys : List String) : Except GymlError α :=
  match root with
  | none => .error .rootNotSet
  | some r =>
    match getValue r keys with
    | .error e => .error e
    | .ok node => decode node

/-- One scalar-decode instance of the external `yaml.Node.Decode`: decoding
a scalar node into an `int`. -/
def decodeInt (node : Node) : Except GymlError Int :=
  match node with
  | .scalar s =>
    match goAtoi s with
    | some i => .ok i
    | none => .error .decodeError
  | _ => .error .decodeError

def decodeIntList : List Node → Except GymlError (List Int)
  | [] => .ok []
  | n :: rest =>
    match decodeInt n, decodeIntList rest with
    | .ok i, .ok is => .ok (i :: is)
    | .error e, _ => .error e
    | _, .error e => .error e

/-- Whether a scalar value is a yaml null (decoding it into a slice leaves
the slice `nil`). -/
def isNullScalar (s : String) : Bool :=
  s = "" || s = "~" || s = "null" || s = "Null" || s = "NULL"

/-- The external `yaml.Node.Decode` instantiated at `[]int`, before
`normalizeEmptySlice`: `none` is a `nil` Go slice (the zero value, produced
by a null scalar or by a document whose content count is not 1, where
`decoder.document` declines without raising a type error), `some` an
allocated slice. -/
def decodeIntSliceRaw : Node → Except GymlError (Option (List Int))
  | .sequence content =>
    match decodeIntList content with
    | .ok is => .ok (some is)
    | .error e => .error e
  | .scalar s => if isNullScalar s then .ok none else .error .decodeError
  | .document [c] => decodeIntSliceRaw c
  | .document _ => .ok none
  | _ => .error .decodeError

/-- Function `normalizeEmptySlice` from `gyml.go`: a `nil` slice result is replaced
by an allocated empty slice; anything else is untouched. -/
def normalizeEmptySlice (v : Option (List Int)) : Option (List Int) :=
  match v with
  | none => some []
  | some l => some l

/-- Instance `GetValue[[]int]`: resolve, decode into `[]int`, then normalize. -/
def GetValueIntSlice (root : Option Node) (keys : List String) :
    Except GymlError (Option (List Int)) :=
  GetValueWith (fun n => (decodeIntSliceRaw n).map normalizeEmptySlice)
    root keys

/-- The external `yaml.Node.Decode` instantiated at `string`. -/
def decodeString (node : Node) : Except GymlError String :=
  match node with
  | .scalar s => .ok s
  | _ => .error .decodeError

/-- Instance `GetValue[string]`: resolve, then decode the node into a string. -/
def GetValueString (root : Option Node) (keys : List String) :
    Except GymlError String :=
  GetValueWith decodeString root keys

/-! ## Small list facts used by the unfolding lemmas -/

theorem list_set_get_self {α : Type} :
    ∀ (l : List α) (i : Nat) (h : i < l.length), l.set i l[i] = l
  | _ :: _, 0, _ => rfl
  | x :: xs, i + 1, h => by
    simp only [List.set, List.getElem_cons_succ]
    rw [list_set_get_self xs i (by simpa using h)]

theorem list_eraseIdx_set_same {α : Type} :
    ∀ (l : List α) (i : Nat) (x : α), (l.set i x).eraseIdx i = l.eraseIdx i
  | [], _, _ => rfl
  | _ :: _, 0, _ => rfl
  | y :: ys, i + 1, x => by
    simp only [List.set, List.eraseIdx]
    rw [list_eraseIdx_set_same ys i x]

/-! ## Unfolding lemmas

One equation per branch of the recursive functions, so that later proofs
can rewrite a single traversal step at a time. -/

theorem getValue_nil (node : Node) : getValue node [] = .ok node := by
  simp [getValue]

theorem getValue_document_nil (key : String) (rest : List String) :
    getValue (.document []) (key :: rest) = .error .emptyDocumentNode := by
  simp [getValue]

theorem getValue_document_cons (c : Node) (cs : List Node) (key : String)
    (rest : List String) :
    getValue (.document (c :: cs)) (key :: rest) = getValue c (key :: rest) := by
  simp [getValue]

theorem getValue_sequence_error {content : List Node} {key : String}
    {e : GymlError} (rest : List String)
    (h : parseValidIndex key content = .error e) :
    getValue (.sequence content) (key :: rest) = .error e := by
  simp only [getValue]
  split
  · rename_i e' h'
    rw [h'] at h
    cases h
    rfl
  · rename_i i h'
    rw [h'] at h
    cases h

theorem getValue_sequence_ok {content : List Node} {key : String} {i : Nat}
    (rest : List String) (h : parseValidIndex key content = .ok i) :
    getValue (.sequence content) (key :: rest) =
      getValue (content.get ⟨i, parseValidIndex_ok_lt h⟩) rest := by
  simp only [getValue]
  split
  · rename_i e' h'
    rw [h'] at h
    cases h
  · rename_i i' h'
    rw [h'] at h
    cases h
    rfl

theorem getValue_mapping (content : List Node) (key : String)
    (rest : List String) :
    getValue (.mapping content) (key :: rest) =
      getValueInMapping content key rest := by
  simp [getValue]

theorem getValue_scalar (s : String) (key : String) (rest : List String) :
    getValue (.scalar s) (key :: rest) = .error .unexpectedNodeKind := by
  simp [getValue]

theorem deleteValue_nil (node : Node) :
    deleteValue node [] = (some .invalidKeysList, node) := by
  simp [deleteValue]

theorem deleteValue_document_nil (key : String) (rest : List String) :
    deleteValue (.document []) (key :: rest) =
      (some .emptyDocumentNode, .document []) := by
  simp [deleteValue]

theorem deleteValue_document_cons (c : Node) (cs : List Node) (key : String)
    (rest : List String) :
    deleteValue (.document (c :: cs)) (key :: rest) =
      ((deleteValue c (key :: rest)).1,
        .document ((deleteValue c (key :: rest)).2 :: cs)) := by
  simp [deleteValue]

theorem deleteValue_sequence_error {content : List Node} {key : String}
    {e : GymlError} (rest : List String)
    (h : parseValidIndex key content = .error e) :
    deleteValue (.sequence content) (key :: rest) =
      (some e, .sequence content) := by
  simp only [deleteValue]
  split
  · rename_i e' h'
    rw [h'] at h
    cases h
    rfl
  · rename_i i h'
    rw [h'] at h
    cases h

theorem deleteValue_sequence_ok_last {content : List Node} {key : String}
    {i : Nat} (h : parseValidIndex key content = .ok i) :
    deleteValue (.sequence content) [key] =
      (none, .sequence (content.eraseIdx i)) := by
  simp only [deleteValue]
  split
  · rename_i e' h'
    rw [h'] at h
    cases h
  · rename_i i' h'
    rw [h'] at h
    cases h
    rfl

theorem deleteValue_sequence_ok_cons {content : List Node} {key : String}
    {i : Nat} (k' : String) (rest' : List String)
    (h : parseValidIndex key content = .ok i) :
    deleteValue (.sequence content) (key :: k' :: rest') =
      (let r := deleteValue (content.get ⟨i, parseValidIndex_ok_lt h⟩)
          (k' :: rest')
        if r.1.isNone && isEmptyNode r.2 then
          (none, .sequence ((content.set i r.2).eraseIdx i))
        else (r.1, .sequence (content.set i r.2))) := by
  simp only [deleteValue]
  split
  · rename_i e' h'
    rw [h'] at h
    cases h
  · rename_i i' h'
    rw [h'] at h
    cases h
    simp

theorem deleteValue_mapping (content : List Node) (key : String)
    (rest : List String) :
    deleteValue (.mapping content) (key :: rest) =
      ((deleteInMapping content key rest).1,
        .mapping (deleteInMapping content key rest).2) := by
  simp [deleteValue]

theorem deleteValue_scalar (s : String) (key : String) (rest : List String) :
    deleteValue (.scalar s) (key :: rest) =
      (some .invalidKeysList, .scalar s) := by
  simp [deleteValue]

theorem deleteValue_other (key : String) (rest : List String) :
    deleteValue .other (key :: rest) = (some .unexpectedNodeKind, .other) := by
  simp [deleteValue]

theorem deleteInMapping_nil (key : String) (rest : List String) :
    deleteInMapping [] key rest = (some .keyNotFound, []) := by
  simp [deleteInMapping]

theorem deleteInMapping_single (x : Node) (key : String) (rest : List String) :
    deleteInMapping [x] key rest = (some .keyNotFound, [x]) := by
  simp [deleteInMapping]

theorem deleteInMapping_match_last {k : Node} {key : String} (v : Node)
    (tail : List Node) (h : k.val = key) :
    deleteInMapping (k :: v :: tail) key [] = (none, tail) := by
  simp [deleteInMapping, h]

theorem deleteInMapping_match_cons {k : Node} {key : String} (v : Node)
    (tail : List Node) (h : k.val = key) (r' : String) (rest' : List String) :
    deleteInMapping (k :: v :: tail) key (r' :: rest') =
      (if (deleteValue v (r' :: rest')).1.isNone &&
          isEmptyNode (deleteValue v (r' :: rest')).2 then (none, tail)
        else ((deleteValue v (r' :: rest')).1,
          k :: (deleteValue v (r' :: rest')).2 :: tail)) := by
  simp [deleteInMapping, h]

theorem deleteInMapping_skip {k : Node} {key : String} (v : Node)
    (tail : List Node) (h : ¬ k.val = key) (rest : List String) :
    deleteInMapping (k :: v :: tail) key rest =
      ((deleteInMapping tail key rest).1,
        k :: v :: (deleteInMapping tail key rest).2) := by
  simp [deleteInMapping, h]

/-! ## Characterization of `parseValidIndex` -/

theorem parseValidIndex_format_error {t : String} (content : List Node)
    (h : t.length < 3 ∨ t.data.head? ≠ some '[' ∨
      t.data.getLast? ≠ some ']' ∨ goAtoi (strInterior t) = none) :
    parseValidIndex t content = .error .invalidIndexFormat := by
  unfold parseValidIndex
  split_ifs with h1 h2
  · rfl
  · rfl
  · rw [not_or] at h2
    push_neg at h2
    rcases h with h | h | h | h
    · exact absurd h h1
    · exact absurd h2.1 h
    · exact absurd h2.2 h
    · simp [h]

theorem parseValidIndex_atoi_some {t : String} {i : Int} (content : List Node)
    (h1 : ¬ t.length < 3) (h2 : t.data.head? = some '[')
    (h3 : t.data.getLast? = some ']') (h4 : goAtoi (strInterior t) = some i) :
    parseValidIndex t content =
      if i < 0 ∨ (content.length : Int) ≤ i then .error .indexOutOfBound
      else .ok i.toNat := by
  unfold parseValidIndex
  rw [if_neg h1, if_neg (by simp [h2, h3]), h4]

/-! ## Claims -/

/-- C6: resolving with an empty path returns the current node itself (for
every node, a childless Document included); a childless Document with a
non-empty path fails with `EmptyDocument`; a Document with a child descends
into that single child with the path unchanged. -/
theorem C6_resolve_document_cases (node c : Node) (cs : List Node)
    (keys : List String) (hne : keys ≠ []) :
    getValue node [] = .ok node ∧
    getValue (.document []) keys = .error .emptyDocumentNode ∧
    getValue (.document (c :: cs)) keys = getValue c keys := by
  obtain ⟨k, rest, rfl⟩ : ∃ k rest, keys = k :: rest := by
    cases keys with
    | nil => exact absurd rfl hne
    | cons k rest => exact ⟨k, rest, rfl⟩
  exact ⟨getValue_nil node, getValue_document_nil k rest,
    getValue_document_cons c cs k rest⟩

theorem C6_resolve_document_cases_witness :
    getValue (.scalar "s") [] = .ok (.scalar "s") ∧
    getValue (.document []) ["k"] = .error .emptyDocumentNode ∧
    getValue (.document [.scalar "v"]) ["k"] = getValue (.scalar "v") ["k"] :=
  C6_resolve_document_cases (.scalar "s") (.scalar "v") [] ["k"] (by simp)

/-- C9: the public `SetValue`/`DeleteValue` check the keys list before the
root, so an empty path yields `InvalidKeysList` for every root, the nil
root included; the public `GetValue` checks only the root and accepts an
empty path, so a nil root yields `RootNotSet` for every path, the empty
one included. -/
theorem C9_argument_validation_precedence :
    (∀ (root : Option Node) (data : EncValue),
      SetValue root data [] = (some .invalidKeysList, root)) ∧
    (∀ root : Option Node, DeleteValue root [] = (some .invalidKeysList, root)) ∧
    (∀ (α : Type) (decode : Node → Except GymlError α) (keys : List String),
      GetValueWith decode none keys = .error .rootNotSet) := by
  refine ⟨fun root data => ?_, fun root => ?_, fun α d keys => ?_⟩ <;>
    simp [SetValue, DeleteValue, GetValueWith]

/-- C10: the append token `"[]"` has length 2, below the minimum index
token length 3, so against every Sequence node a read or a delete whose
next token is `"[]"` fails with `InvalidIndexFormat`. -/
theorem C10_append_token_never_read_or_deleted (content : List Node)
    (rest : List String) :
    ("[]" : String).length < 3 ∧
    getValue (.sequence content) ("[]" :: rest) = .error .invalidIndexFormat ∧
    deleteValue (.sequence content) ("[]" :: rest) =
      (some .invalidIndexFormat, .sequence content) := by
  have hp : parseValidIndex "[]" content = .error .invalidIndexFormat := by
    simp +decide [parseValidIndex]
  exact ⟨by decide, getValue_sequence_error rest hp,
    deleteValue_sequence_error rest hp⟩

/-- C5: against a Sequence node of length `n`, a next token that is not a
well-formed bracket-enclosed base-10 integer of total length at least 3
(too short, brackets missing, or an interior `Atoi` rejects) makes Get fail
with `InvalidIndexFormat` regardless of `n`; a token parsing to `i` with
`i < 0` or `i >= n` makes Get fail with `IndexOutOfBound`; with
`0 <= i < n` traversal descends into element `i`, so a Get at a
single-token path succeeds iff `0 <= i < n`. -/
theorem C5_sequence_index_validation (content : List Node)
    (rest : List String) (t : String) :
    ((t.length < 3 ∨ t.data.head? ≠ some '[' ∨ t.data.getLast? ≠ some ']' ∨
        goAtoi (strInterior t) = none) →
      getValue (.sequence content) (t :: rest) = .error .invalidIndexFormat) ∧
    (∀ i : Int, ¬ t.length < 3 → t.data.head? = some '[' →
      t.data.getLast? = some ']' → goAtoi (strInterior t) = some i →
      (i < 0 ∨ (content.length : Int) ≤ i) →
      getValue (.sequence content) (t :: rest) = .error .indexOutOfBound) ∧
    (∀ (i : Int) (hr : 0 ≤ i ∧ i < (content.length : Int)), ¬ t.length < 3 →
      t.data.head? = some '[' → t.data.getLast? = some ']' →
      goAtoi (strInterior t) = some i →
      getValue (.sequence content) (t :: rest) =
        getValue (content.get ⟨i.toNat, by omega⟩) rest) ∧
    (∀ i : Int, ¬ t.length < 3 → t.data.head? = some '[' →
      t.data.getLast? = some ']' → goAtoi (strInterior t) = some i →
      ((∃ v, getValue (.sequence content) [t] = .ok v) ↔
        0 ≤ i ∧ i < (content.length : Int))) := by
  refine ⟨fun h => getValue_sequence_error rest (parseValidIndex_format_error content h),
    fun i h1 h2 h3 h4 hout => ?_, fun i hr h1 h2 h3 h4 => ?_,
    fun i h1 h2 h3 h4 => ?_⟩
  · exact getValue_sequence_error rest
      (by rw [parseValidIndex_atoi_some content h1 h2 h3 h4, if_pos hout])
  · have hok : parseValidIndex t content = .ok i.toNat := by
      rw [parseValidIndex_atoi_some content h1 h2 h3 h4, if_neg (by omega)]
    exact getValue_sequence_ok rest hok
  · constructor
    · rintro ⟨v, hv⟩
      by_contra hout
      rw [getValue_sequence_error ([] : List String)
        (by rw [parseValidIndex_atoi_some content h1 h2 h3 h4,
          if_pos (by omega)])] at hv
      cases hv
    · intro hr
      have hok : parseValidIndex t content = .ok i.toNat := by
        rw [parseValidIndex_atoi_some content h1 h2 h3 h4, if_neg (by omega)]
      exact ⟨_, by rw [getValue_sequence_ok ([] : List String) hok, getValue_nil]⟩

theorem C5_sequence_index_validation_witness :
    getValue (.sequence [.scalar "10", .scalar "20"]) ["[*]"] =
      .error .invalidIndexFormat ∧
    getValue (.sequence [.scalar "10", .scalar "20"]) ["[5]"] =
      .error .indexOutOfBound ∧
    getValue (.sequence [.scalar "10", .scalar "20"]) ["[1]"] =
      .ok (.scalar "20") ∧
    (∃ v, getValue (.sequence [.scalar "10", .scalar "20"]) ["[1]"] = .ok v) := by
  refine ⟨(C5_sequence_index_validation _ _ "[*]").1 (by decide),
    (C5_sequence_index_validation _ _ "[5]").2.1 5 (by decide) (by decide)
      (by decide) (by decide) (by decide),
    ?_,
    ((C5_sequence_index_validation _ [] "[1]").2.2.2 1 (by decide) (by decide)
      (by decide) (by decide)).mpr (by decide)⟩
  have h := (C5_sequence_index_validation [.scalar "10", .scalar "20"] []
    "[1]").2.2.1 1 (by decide) (by decide) (by decide) (by decide) (by decide)
  rw [h, getValue_nil]
  rfl

/-- The chain of first children through Document nodes ends in a Document
with no child: the only tree shape `setValue` ever writes into. -/
def hasEmptyDocCore : Node → Bool
  | .document [] => true
  | .document (c :: _) => hasEmptyDocCore c
  | _ => false

theorem setValue_none_hasEmptyDocCore (node : Node) (data : EncValue)
    (keys : List String) :
    (setValue node data keys).1 = none → hasEmptyDocCore node = true := by
  induction node, data, keys using setValue.induct with
  | case1 data keys v => intro h; simp [setValue] at h
  | case2 data keys c cs ih =>
    intro h
    simp only [setValue] at h
    simp only [hasEmptyDocCore]
    exact ih h
  | case3 data keys => intro _; simp [hasEmptyDocCore]
  | case4 data keys n hns hnd =>
    intro h
    cases n with
    | scalar v => exact absurd rfl (hns v)
    | document content => exact absurd rfl (hnd content)
    | sequence c => simp [setValue] at h
    | mapping c => simp [setValue] at h
    | other => simp [setValue] at h

/-- C7: with a non-empty path, `setValue` fails with `ScalarSetAttempt` on
a Scalar, fails with `UnexpectedNodeKind` on a Mapping or Sequence (empty
or not, so in particular a non-empty one, whether handed in directly or
reached as a Document's child via the recursion equation), leaves the tree
unchanged in both cases, and a `setValue` can only succeed when the chain
of Document first-children ends in a childless Document — synthesis happens
only in the empty-Document case. -/
theorem C7_set_error_kinds (data : EncValue) (keys : List String)
    (_hne : keys ≠ []) :
    (∀ s, setValue (.scalar s) data keys = (some .scalarSetAttempt, .scalar s)) ∧
    (∀ c, setValue (.mapping c) data keys =
      (some .unexpectedNodeKind, .mapping c)) ∧
    (∀ c, setValue (.sequence c) data keys =
      (some .unexpectedNodeKind, .sequence c)) ∧
    (∀ c cs, setValue (.document (c :: cs)) data keys =
      ((setValue c data keys).1, .document ((setValue c data keys).2 :: cs))) ∧
    (∀ node, (setValue node data keys).1 = none →
      hasEmptyDocCore node = true) := by
  refine ⟨fun s => by simp [setValue], fun c => by simp [setValue],
    fun c => by simp [setValue], fun c cs => by simp [setValue],
    fun node => setValue_none_hasEmptyDocCore node data keys⟩

theorem C7_set_error_kinds_witness :
    setValue (.scalar "s") (.scalar "x") ["k"] =
      (some .scalarSetAttempt, .scalar "s") ∧
    setValue (.mapping [.scalar "a", .scalar "1"]) (.scalar "x") ["k"] =
      (some .unexpectedNodeKind, .mapping [.scalar "a", .scalar "1"]) ∧
    hasEmptyDocCore (.document []) = true :=
  ⟨(C7_set_error_kinds (.scalar "x") ["k"] (by simp)).1 "s",
    (C7_set_error_kinds (.scalar "x") ["k"] (by simp)).2.1 _,
    (C7_set_error_kinds (.scalar "x") ["k"] (by simp)).2.2.2.2 (.document [])
      (by simp [setValue, appendDataToContent, createContentNode,
        createTypedEnvelope, encodeNode, encodeEntries])⟩

theorem normalizeEmptySlice_isSome (w : Option (List Int)) :
    (normalizeEmptySlice w).isSome = true := by
  cases w <;> rfl

/-- C8: whenever the `[]int` instance of `GetValue` succeeds, the returned
collection is never nil (`normalizeEmptySlice` turns a nil decode into an
allocated empty slice), and resolving to an empty Sequence node yields the
explicit empty collection. -/
theorem C8_slice_never_nil (root : Node) (keys : List String) :
    (∀ v, GetValueIntSlice (some root) keys = .ok v → v.isSome = true) ∧
    (getValue root keys = .ok (.sequence []) →
      GetValueIntSlice (some root) keys = .ok (some [])) := by
  constructor
  · intro v hv
    cases hg : getValue root keys with
    | error e => simp [GetValueIntSlice, GetValueWith, hg] at hv
    | ok node =>
      simp only [GetValueIntSlice, GetValueWith, hg] at hv
      cases hd : decodeIntSliceRaw node with
      | error e => simp [hd, Except.map] at hv
      | ok w =>
        simp only [hd, Except.map, Except.ok.injEq] at hv
        cases hv
        exact normalizeEmptySlice_isSome w
  · intro hg
    simp [GetValueIntSlice, GetValueWith, hg, decodeIntSliceRaw, decodeIntList,
      normalizeEmptySlice, Except.map]

theorem C8_slice_never_nil_witness :
    Option.isSome (some ([] : List Int)) = true ∧
    GetValueIntSlice (some (.sequence [])) [] = .ok (some []) :=
  have h2 := (C8_slice_never_nil (.sequence []) []).2 (getValue_nil _)
  ⟨(C8_slice_never_nil (.sequence []) []).1 (some []) h2, h2⟩

/-- C1 fails on the code: `SetValue` of the string `"x"` at path `["a"]`
into an empty Document succeeds, but it appends the *content* of the
encoded single-entry mapping (its key node and value node, two nodes) to
the Document instead of the mapping node itself, so the immediately
following string `GetValue` at `["a"]` descends into the key scalar and
fails with `UnexpectedNodeKind` instead of returning `"x"`. -/
theorem C1_set_then_get_fails_on_code :
    SetValue (some (.document [])) (.scalar "x") ["a"] =
      (none, some (.document [.scalar "a", .scalar "x"])) ∧
    GetValueString (some (.document [.scalar "a", .scalar "x"])) ["a"] =
      .error .unexpectedNodeKind := by
  constructor
  · simp [SetValue, setValue, appendDataToContent, createContentNode,
      createTypedEnvelope, encodeNode, encodeEntries, Node.contentOf]
  · simp [GetValueString, GetValueWith, getValue]

/-- C2 fails on the code: after the successful `SetValue` of `"x"` at
`["a"]` into an empty Document, the Document's child count is 2, not 1
(the flattened key scalar and value node of the encoded envelope). -/
theorem C2_document_child_count_after_set :
    SetValue (some (.document [])) (.scalar "x") ["a"] =
      (none, some (.document [.scalar "a", .scalar "x"])) ∧
    (Node.document [.scalar "a", .scalar "x"]).contentOf.length = 2 := by
  constructor
  · simp [SetValue, setValue, appendDataToContent, createContentNode,
      createTypedEnvelope, encodeNode, encodeEntries, Node.contentOf]
  · rfl

theorem list_set_get_self' {α : Type} (l : List α) (i : Nat)
    (h : i < l.length) : l.set i (l.get ⟨i, h⟩) = l := by
  simpa using list_set_get_self l i h

theorem delete_error_unchanged :
    (∀ (node : Node) (keys : List String),
      (deleteValue node keys).1 ≠ none → (deleteValue node keys).2 = node) ∧
    (∀ (content : List Node) (key : String) (rest : List String),
      (deleteInMapping content key rest).1 ≠ none →
        (deleteInMapping content key rest).2 = content) := by
  refine deleteValue.mutual_induct _ _ ?_ ?_ ?_ ?_ ?_ ?_ ?_ ?_ ?_ ?_ ?_ ?_ ?_
    ?_ ?_
  · intro node _
    rw [deleteValue_nil]
  · intro key rest c cs ih h
    rw [deleteValue_document_cons] at h ⊢
    exact congrArg (fun x => Node.document (x :: cs)) (ih h)
  · intro key rest _
    rw [deleteValue_document_nil]
  · intro key rest a e hp _
    rw [deleteValue_sequence_error rest hp]
  · intro key rest a i hp hre h
    rw [List.isEmpty_iff] at hre
    subst hre
    rw [deleteValue_sequence_ok_last hp] at h
    exact absurd rfl h
  · intro key rest a i hp hne r hcond ih h
    obtain ⟨r', rest', rfl⟩ : ∃ r' rest', rest = r' :: rest' := by
      cases rest with
      | nil => simp at hne
      | cons r' rest' => exact ⟨r', rest', rfl⟩
    rw [deleteValue_sequence_ok_cons r' rest' hp] at h
    simp only [r] at hcond
    simp only [hcond, if_true] at h
    exact absurd rfl h
  · intro key rest a i hp hne r hcond ih h
    obtain ⟨r', rest', rfl⟩ : ∃ r' rest', rest = r' :: rest' := by
      cases rest with
      | nil => simp at hne
      | cons r' rest' => exact ⟨r', rest', rfl⟩
    rw [deleteValue_sequence_ok_cons r' rest' hp] at h ⊢
    simp only [r] at hcond
    simp only [hcond, if_false, Bool.false_eq_true] at h ⊢
    have h2 := ih h
    rw [h2, list_set_get_self']
  · intro key rest a ih h
    rw [deleteValue_mapping] at h ⊢
    exact congrArg Node.mapping (ih h)
  · intro key rest s _
    rw [deleteValue_scalar]
  · intro key rest _
    rw [deleteValue_other]
  · intro rest k v tail hre h
    rw [List.isEmpty_iff] at hre
    subst hre
    rw [deleteInMapping_match_last v tail rfl] at h
    exact absurd rfl h
  · intro rest k v tail hne r hcond ih h
    obtain ⟨r', rest', rfl⟩ : ∃ r' rest', rest = r' :: rest' := by
      cases rest with
      | nil => simp at hne
      | cons r' rest' => exact ⟨r', rest', rfl⟩
    rw [deleteInMapping_match_cons v tail rfl r' rest'] at h
    simp only [r] at hcond
    simp only [hcond, if_true] at h
    exact absurd rfl h
  · intro rest k v tail hne r hcond ih h
    obtain ⟨r', rest', rfl⟩ : ∃ r' rest', rest = r' :: rest' := by
      cases rest with
      | nil => simp at hne
      | cons r' rest' => exact ⟨r', rest', rfl⟩
    rw [deleteInMapping_match_cons v tail rfl r' rest'] at h ⊢
    simp only [r] at hcond
    simp only [hcond, if_false, Bool.false_eq_true] at h ⊢
    rw [ih h]
  · intro key rest k v tail hkv ih h
    rw [deleteInMapping_skip v tail hkv rest] at h ⊢
    rw [ih h]
  · intro content key rest hshape h
    cases content with
    | nil => rw [deleteInMapping_nil]
    | cons x xs =>
      cases xs with
      | nil => rw [deleteInMapping_single]
      | cons y ys => exact absurd rfl (hshape x y ys)

theorem setValue_error_unchanged (node : Node) (data : EncValue)
    (keys : List String) :
    (setValue node data keys).1 ≠ none → (setValue node data keys).2 = node := by
  induction node, data, keys using setValue.induct with
  | case1 data keys v => intro _; simp [setValue]
  | case2 data keys c cs ih =>
    intro h
    simp only [setValue] at h ⊢
    rw [ih h]
  | case3 data keys =>
    intro h
    simp only [setValue, appendDataToContent] at h ⊢
    cases hc : createContentNode (createTypedEnvelope data keys) with
    | error e => simp [hc]
    | ok n => simp [hc] at h
  | case4 data keys n hns hnd =>
    intro _
    cases n with
    | scalar v => exact absurd rfl (hns v)
    | document content => exact absurd rfl (hnd content)
    | sequence c => simp [setValue]
    | mapping c => simp [setValue]
    | other => simp [setValue]

/-- C4: whenever the public `SetValue` or `DeleteValue` returns an error,
the tree reachable from the root is exactly as it was before the call. -/
theorem C4_atomic_on_failure :
    (∀ (root : Option Node) (data : EncValue) (keys : List String)
      (e : GymlError), (SetValue root data keys).1 = some e →
        (SetValue root data keys).2 = root) ∧
    (∀ (root : Option Node) (keys : List String) (e : GymlError),
      (DeleteValue root keys).1 = some e →
        (DeleteValue root keys).2 = root) := by
  constructor
  · intro root data keys e h
    unfold SetValue at h ⊢
    by_cases hk : keys.isEmpty
    · simp [hk]
    · cases root with
      | none => simp [hk]
      | some r =>
        simp only [hk, if_false, Bool.false_eq_true] at h ⊢
        rw [setValue_error_unchanged r data keys (by rw [h]; simp)]
  · intro root keys e h
    unfold DeleteValue at h ⊢
    by_cases hk : keys.isEmpty
    · simp [hk]
    · cases root with
      | none => simp [hk]
      | some r =>
        simp only [hk, if_false, Bool.false_eq_true] at h ⊢
        rw [delete_error_unchanged.1 r keys (by rw [h]; simp)]

theorem C4_atomic_on_failure_witness :
    (SetValue (some (.scalar "v")) (.scalar "x") ["a"]).2 =
      some (.scalar "v") ∧
    (DeleteValue (some (.document [])) ["a"]).2 = some (.document []) :=
  ⟨C4_atomic_on_failure.1 (some (.scalar "v")) (.scalar "x") ["a"]
      .scalarSetAttempt (by simp [SetValue, setValue]),
    C4_atomic_on_failure.2 (some (.document [])) ["a"] .emptyDocumentNode
      (by simp [DeleteValue, deleteValue])⟩

/-- The flat-content index at which the mapping scan loop first matches the
key (stepping two nodes at a time, so the result is even and the matched
entry occupies positions `j` and `j + 1`). -/
def findPairIdx : List Node → String → Option Nat
  | k :: _ :: tail, key =>
    if k.val = key then some 0
    else (findPairIdx tail key).map (· + 2)
  | _, _ => none

theorem deleteInMapping_found_last :
    ∀ (content : List Node) (key : String) (j : Nat),
      findPairIdx content key = some j →
      deleteInMapping content key [] =
        (none, content.take j ++ content.drop (j + 2))
  | [], key, j, h => by simp [findPairIdx] at h
  | [x], key, j, h => by simp [findPairIdx] at h
  | k :: v :: tail, key, j, h => by
    by_cases hk : k.val = key
    · simp only [findPairIdx, hk, if_true, Option.some.injEq] at h
      subst h
      rw [deleteInMapping_match_last v tail hk]
      rfl
    · simp only [findPairIdx, hk, if_false, Option.map_eq_some'] at h
      obtain ⟨j', hj', rfl⟩ := h
      rw [deleteInMapping_skip v tail hk [],
        deleteInMapping_found_last tail key j' hj']
      rfl

theorem deleteInMapping_found_prune :
    ∀ (content : List Node) (key : String) (j : Nat) (v : Node) (r' : String)
      (rest' : List String),
      findPairIdx content key = some j → content[j + 1]? = some v →
      (deleteValue v (r' :: rest')).1 = none →
      isEmptyNode (deleteValue v (r' :: rest')).2 = true →
      deleteInMapping content key (r' :: rest') =
        (none, content.take j ++ content.drop (j + 2))
  | [], key, j, v, r', rest', h, _, _, _ => by simp [findPairIdx] at h
  | [x], key, j, v, r', rest', h, _, _, _ => by simp [findPairIdx] at h
  | k :: v' :: tail, key, j, v, r', rest', h, hv, hdel, hemp => by
    by_cases hk : k.val = key
    · simp only [findPairIdx, hk, if_true, Option.some.injEq] at h
      subst h
      simp only [List.getElem?_cons_succ, List.getElem?_cons_zero,
        Option.some.injEq] at hv
      subst hv
      rw [deleteInMapping_match_cons v' tail hk r' rest',
        if_pos (by rw [hdel, hemp]; rfl)]
      rfl
    · simp only [findPairIdx, hk, if_false, Option.map_eq_some'] at h
      obtain ⟨j', hj', rfl⟩ := h
      have hv' : tail[j' + 1]? = some v := by
        simpa using hv
      rw [deleteInMapping_skip v' tail hk (r' :: rest'),
        deleteInMapping_found_prune tail key j' v r' rest' hj' hv' hdel hemp]
      rfl

/-- C3 as stated fails on the code at the Document level: deleting the sole
entry of the Document's child mapping succeeds and leaves that now-empty
mapping in place as the Document's child — the empty container is *not*
removed from its own parent when the parent is the Document. -/
theorem C3_document_level_prune_missing :
    deleteValue (.document [.mapping [.scalar "a", .scalar "1"]]) ["a"] =
      (none, .document [.mapping []]) ∧
    isEmptyNode (.mapping []) = true ∧
    (Node.document [.mapping []]).contentOf = [.mapping []] := by
  refine ⟨?_, rfl, rfl⟩
  simp [deleteValue, deleteInMapping, Node.val]

/-- C3 amended: the cascading prune happens at every level whose parent is
itself a Mapping or a Sequence (not at the Document): a successful inner
delete that leaves the selected Sequence element or Mapping entry value
empty removes that element / whole entry from the parent, and a
single-token delete removes exactly the addressed element or entry, with
the remaining content in its original relative order (`take`/`drop` of the
original list). -/
theorem C3_cascading_prune (content : List Node) (key t r' : String)
    (rest' : List String) (i j : Nat) (v : Node) :
    (∀ (h : parseValidIndex t content = .ok i),
      (deleteValue (content.get ⟨i, parseValidIndex_ok_lt h⟩)
        (r' :: rest')).1 = none →
      isEmptyNode (deleteValue (content.get ⟨i, parseValidIndex_ok_lt h⟩)
        (r' :: rest')).2 = true →
      deleteValue (.sequence content) (t :: r' :: rest') =
        (none, .sequence (content.eraseIdx i))) ∧
    (parseValidIndex t content = .ok i →
      deleteValue (.sequence content) [t] =
        (none, .sequence (content.take i ++ content.drop (i + 1)))) ∧
    (findPairIdx content key = some j →
      deleteValue (.mapping content) [key] =
        (none, .mapping (content.take j ++ content.drop (j + 2)))) ∧
    (findPairIdx content key = some j → content[j + 1]? = some v →
      (deleteValue v (r' :: rest')).1 = none →
      isEmptyNode (deleteValue v (r' :: rest')).2 = true →
      deleteValue (.mapping content) (key :: r' :: rest') =
        (none, .mapping (content.take j ++ content.drop (j + 2)))) := by
  refine ⟨fun h hdel hemp => ?_, fun h => ?_, fun h => ?_,
    fun h hv hdel hemp => ?_⟩
  · rw [deleteValue_sequence_ok_cons r' rest' h,
      if_pos (by rw [hdel, hemp]; rfl)]
    rw [list_eraseIdx_set_same]
  · rw [deleteValue_sequence_ok_last h, List.eraseIdx_eq_take_drop_succ]
  · rw [deleteValue_mapping, deleteInMapping_found_last content key j h]
  · rw [deleteValue_mapping,
      deleteInMapping_found_prune content key j v r' rest' h hv hdel hemp]

theorem C3_cascading_prune_witness :
    deleteValue (.sequence [.mapping [.scalar "b", .scalar "2"]])
      ["[0]", "b"] = (none, .sequence []) ∧
    deleteValue (.sequence [.scalar "10", .scalar "20", .scalar "30"])
      ["[1]"] = (none, .sequence [.scalar "10", .scalar "30"]) ∧
    deleteValue (.mapping [.scalar "a", .scalar "1", .scalar "b", .scalar "2"])
      ["a"] = (none, .mapping [.scalar "b", .scalar "2"]) ∧
    deleteValue (.mapping [.scalar "a", .mapping [.scalar "c", .scalar "3"],
      .scalar "b", .scalar "2"]) ["a", "c"] =
      (none, .mapping [.scalar "b", .scalar "2"]) := by
  refine ⟨?_, ?_, ?_, ?_⟩
  · have h := (C3_cascading_prune [.mapping [.scalar "b", .scalar "2"]]
      "" "[0]" "b" [] 0 0 .other).1 rfl
      (by simp [deleteValue, deleteInMapping, Node.val])
      (by simp [deleteValue, deleteInMapping, Node.val, isEmptyNode])
    simpa using h
  · have h := (C3_cascading_prune [.scalar "10", .scalar "20", .scalar "30"]
      "" "[1]" "" [] 1 0 .other).2.1 rfl
    simpa using h
  · have h := (C3_cascading_prune
      [.scalar "a", .scalar "1", .scalar "b", .scalar "2"]
      "a" "" "" [] 0 0 .other).2.2.1 rfl
    simpa using h
  · have h := (C3_cascading_prune
      [.scalar "a", .mapping [.scalar "c", .scalar "3"], .scalar "b",
        .scalar "2"] "a" "" "c" [] 0 0
      (.mapping [.scalar "c", .scalar "3"])).2.2.2 rfl rfl
      (by simp [deleteValue, deleteInMapping, Node.val])
      (by simp [deleteValue, deleteInMapping, Node.val, isEmptyNode])
    simpa using h

end Gyml
